import Mathlib

/-!
# Verification of exvis (`visualize.py`)

A shallow embedding of the core of `exvis`: the LP and MPS parsers, the
variable/constraint data model, the projection of a model into an undirected
co-occurrence graph, and (modelled from the spec, since the source delegates
them to an external graph library) the force-directed layout engine and the
betweenness-centrality engine.

Strings are modelled as Lean `String`s; Python lists and dicts become Lean
lists and insertion-ordered association lists; Python exceptions become
`Option` (with `none` for an uncaught error such as `IndexError`).
-/

namespace Exvis

/-! ## Python-like string primitives -/

/-- Whitespace test used for `str.strip`, `str.split` and `str.isspace`. -/
def isWS (c : Char) : Bool := c.isWhitespace

/-- `str.strip`: drop leading and trailing whitespace. -/
def pyStripChars (l : List Char) : List Char :=
  ((l.dropWhile isWS).reverse.dropWhile isWS).reverse

def pyStrip (s : String) : String := ⟨pyStripChars s.data⟩

/-- `str.lower` (ASCII behaviour, which is all the parsers rely on). -/
def pyLower (s : String) : String := ⟨s.data.map Char.toLower⟩

/-- Accumulator-based splitter behind `pyWords`. -/
def wordsAux : List Char → List Char → List (List Char)
  | [], cur => if cur.isEmpty then [] else [cur.reverse]
  | c :: rest, cur =>
    if isWS c then
      if cur.isEmpty then wordsAux rest [] else cur.reverse :: wordsAux rest []
    else wordsAux rest (c :: cur)

/-- `str.split()` with no argument: split on whitespace runs, dropping empties. -/
def pyWords (s : String) : List String :=
  (wordsAux s.data []).map fun l => ⟨l⟩

/-- First character of a string is alphabetic (`line[0].isalpha()`);
false for the empty string, which the parsers never reach here. -/
def headIsAlpha (s : String) : Bool :=
  match s.data with
  | [] => false
  | c :: _ => c.isAlpha

/-- First character of a string is whitespace (`line[0].isspace()`). -/
def headIsSpace (s : String) : Bool :=
  match s.data with
  | [] => false
  | c :: _ => isWS c

/-- `needle in hay` for strings (substring test). -/
def containsSub : List Char → List Char → Bool
  | needle, [] => needle.isEmpty
  | needle, c :: rest =>
    if needle.isPrefixOf (c :: rest) then true else containsSub needle rest

/-! ## Data model

The source ties `Variable` and `Constraint` into a cyclic object graph; per
spec §9 we use the arena-and-index pattern: a `Constraint` refers to its
variables by id, and a `Variable`'s back-references are indices into
`Model.constraints`. -/

structure Variable where
  id : String
  constraints : List Nat
deriving DecidableEq, Repr

structure Constraint where
  /-- `variables` in the source (`variables` is a keyword in Lean). -/
  vars : List String
deriving DecidableEq, Repr

structure Model where
  /-- `variables` in the source (`variables` is a keyword in Lean). -/
  vars : List (String × Variable)
  constraints : List Constraint
deriving DecidableEq, Repr

def Model.empty : Model := ⟨[], []⟩

/-- Keys of the variable dictionary, in insertion order. -/
def Model.varIds (m : Model) : List String := m.vars.map Prod.fst

def lookupAssoc : List (String × Variable) → String → Option Variable
  | [], _ => none
  | (k, v) :: rest, id => if k = id then some v else lookupAssoc rest id

/-- `Model.create_variable`: upsert returning the (existing or fresh) variable. -/
def Model.create_variable (m : Model) (id : String) : Model × Variable :=
  match lookupAssoc m.vars id with
  | some v => (m, v)
  | none =>
    let v : Variable := ⟨id, []⟩
    ({ m with vars := m.vars ++ [(id, v)] }, v)

/-- `var.constraints.append(constraint)`: record constraint index `ci` on the
variable stored under `id`. -/
def Model.addBackref (m : Model) (id : String) (ci : Nat) : Model :=
  { m with
    vars := m.vars.map fun p =>
      if p.1 = id then (p.1, ⟨p.2.id, p.2.constraints ++ [ci]⟩) else p }

/-- `Model.create_constraint_relation`: create all variables, append one
`Constraint` holding the ids in input order (duplicates preserved), and append
a back-reference to every occurrence. -/
def Model.create_constraint_relation (m : Model) (ids : List String) : Model :=
  let m1 := ids.foldl (fun acc id => (acc.create_variable id).1) m
  let ci := m1.constraints.length
  let m2 : Model := { m1 with constraints := m1.constraints ++ [⟨ids⟩] }
  ids.foldl (fun acc id => acc.addBackref id ci) m2

/-! ## `is_variable` -/

/-- Characters a variable name must not begin with (besides digits). -/
def badFirst : List Char :=
  ['+', '-', '*', '^', '<', '>', '=', '(', ')', '[', ']', ',', ':']

/-- Characters a variable name must not contain anywhere. -/
def badAny : List Char := ['+', '-', '*', '^', ':']

/-- `is_variable` from `visualize.py`, translated clause by clause. -/
def is_variable (word : String) : Bool :=
  let cs := word.data
  if cs.length > 255 || cs.length == 0 then false
  else
    match cs with
    | [] => false
    | c :: _ =>
      if c.isDigit then false
      else if badFirst.contains c then false
      else if cs.any (fun ch => badAny.contains ch) then false
      else true

/-! ## LP parser -/

inductive LPSection where
  | objective
  | constraint
deriving DecidableEq, Repr

def section_obj : List String :=
  ["minimize", "maximize", "minimum", "maximum", "min", "max"]

def section_con : List String :=
  ["subject to", "such that", "st", "s.t."]

/-- Drop an inline comment: everything from the first `\` on. -/
def cutComment (l : List Char) : List Char :=
  if l.contains '\\' then l.takeWhile (· ≠ '\\') else l

/-- Drop a label: everything up to and including the first `:`, if any. -/
def cutLabel (l : List Char) : List Char :=
  if l.contains ':' then (l.dropWhile (· ≠ ':')).drop 1 else l

/-- One iteration of the `read_lp` line loop: update (current section, model). -/
def lpStep (acc : Option LPSection × Model) (line : String) :
    Option LPSection × Model :=
  let (sec, m) := acc
  match line.data with
  | '\\' :: _ => acc
  | _ =>
    let sl := pyLower (pyStrip line)
    if sl.data.isEmpty then acc
    else if headIsAlpha line then
      if section_obj.contains sl then (some .objective, m)
      else if section_con.contains sl then (some .constraint, m)
      else (none, m)
    else
      match sec with
      | none => acc
      | some s =>
        let l1 := cutLabel (cutComment sl.data)
        let vars := (pyWords ⟨l1⟩).filter is_variable
        if vars.isEmpty then (some s, m)
        else (some s, m.create_constraint_relation vars)

/-- `read_lp`, over a list of already-decoded lines. -/
def read_lp (lines : List String) : Model :=
  (lines.foldl lpStep (none, Model.empty)).2

/-! ## MPS parser

`read_mps` accumulates, per row name, the variable tokens of the COLUMNS
section (a dict `rows` with insertion-ordered keys and ordered value lists),
then registers one constraint relation per row.  The unguarded `content[1]`
access can raise `IndexError`, so the line scan returns an `Option`. -/

/-- `range(1, len(content), 2)` readout: every other token, starting at the
second.  Applied to `content.drop 1`, keeps offsets 1, 3, 5, … of `content`
(a trailing unpaired token is kept). -/
def everyOther : List String → List String
  | [] => []
  | [x] => [x]
  | x :: _ :: rest => x :: everyOther rest

/-- The variable tokens a COLUMNS data line contributes (tokens at odd
offsets; token 0 is the row name). -/
def mpsLineVars (content : List String) : List String :=
  everyOther (content.drop 1)

/-- `rows[row].append(col)` with `rows[row] = []` created on first use. -/
def addRowVar (rows : List (String × List String)) (row col : String) :
    List (String × List String) :=
  if rows.any (fun p => p.1 = row) then
    rows.map fun p => if p.1 = row then (p.1, p.2 ++ [col]) else p
  else rows ++ [(row, [col])]

/-- The line scan of `read_mps`: `isCols` is the "inside COLUMNS" flag, `rows`
the accumulating dict.  `none` models an uncaught `IndexError` (a non-blank
indented line with fewer than two tokens). -/
def mpsScan : List String → Bool → List (String × List String) →
    Option (List (String × List String))
  | [], _, rows => some rows
  | line :: rest, isCols, rows =>
    if ("COLUMNS".data).isPrefixOf line.data then mpsScan rest true rows
    else if !isCols then mpsScan rest isCols rows
    else if (pyStrip line).data.isEmpty then mpsScan rest isCols rows
    else if !headIsSpace line then some rows
    else
      match pyWords line with
      | c0 :: c1 :: cs =>
        if containsSub "MARKER".data c1.data then mpsScan rest isCols rows
        else
          mpsScan rest isCols
            ((mpsLineVars (c0 :: c1 :: cs)).foldl
              (fun acc col => addRowVar acc c0 col) rows)
      | _ => none

/-- `read_mps`, over a list of already-decoded lines; `none` models the parser
raising `IndexError`. -/
def read_mps (lines : List String) : Option Model :=
  (mpsScan lines false []).map fun rows =>
    rows.foldl (fun m p => m.create_constraint_relation p.2) Model.empty

/-! ## Graph projection (edge construction from `plot`) -/

/-- Lexicographic comparison on code points: Python's `<` on strings. -/
def lexLt : List Char → List Char → Bool
  | [], [] => false
  | [], _ :: _ => true
  | _ :: _, [] => false
  | a :: as, b :: bs =>
    if a.val < b.val then true
    else if b.val < a.val then false
    else lexLt as bs

/-- `vi.id < vj.id` in `plot`. -/
def strLt (a b : String) : Bool := lexLt a.data b.data

/-- The canonicalisation in `plot`: `(vi, vj)` if `vi < vj` else `(vj, vi)`.
When the two ids are equal the `else` branch produces a self-pair. -/
def canonPair (a b : String) : String × String :=
  if strLt a b then (a, b) else (b, a)

/-- All canonicalised position pairs `i < j` of one constraint's variable
list, in the loop order of `plot`. -/
def constraintPairs : List String → List (String × String)
  | [] => []
  | x :: xs => xs.map (canonPair x) ++ constraintPairs xs

/-- `edges[edge] = 1` / `edges[edge] += 1` on the insertion-ordered dict. -/
def bumpEdge (edges : List ((String × String) × Nat)) (e : String × String) :
    List ((String × String) × Nat) :=
  if edges.any (fun p => p.1 = e) then
    edges.map fun p => if p.1 = e then (p.1, p.2 + 1) else p
  else edges ++ [(e, 1)]

/-- The edge dict built by `plot` over all constraints. -/
def modelEdges (m : Model) : List ((String × String) × Nat) :=
  m.constraints.foldl
    (fun acc c => (constraintPairs c.vars).foldl bumpEdge acc) []

/-- The edges handed to the graph, with their weights: the co-occurrence
count in weighted mode, a constant 1 otherwise. -/
def graphEdges (m : Model) (weighted : Bool) :
    List ((String × String) × Nat) :=
  (modelEdges m).map fun p => (p.1, if weighted then p.2 else 1)

/-! ## The identifier predicate as the specification words it -/

/-- The spec's reading of the identifier predicate: length between 1 and 255,
first character neither a digit nor one of `+ - * ^ < > = ( ) [ ] , :`, and no
character anywhere among `+ - * ^ :`.  Stated from the spec's words, to be
compared against `is_variable` as translated from the code. -/
def isVariableSpec (word : String) : Prop :=
  1 ≤ word.data.length ∧ word.data.length ≤ 255 ∧
  (∀ c, word.data.head? = some c → ¬c.isDigit ∧ c ∉ badFirst) ∧
  ∀ c ∈ word.data, c ∉ badAny

/-! ## Claims about the parsers (concrete runs) -/

/-- C1, counterexample: a `subject to` header followed by the unindented line
`"c1: x + y <= 10"` yields an **empty** model, not variables `x, y` with one
constraint — the line's first character is alphabetic, so `read_lp` treats it
as a (non-matching) section header, resets the section and drops the line. -/
theorem C1_unindented_constraint_line_is_dropped :
    (read_lp ["Subject To", "c1: x + y <= 10"]).varIds = [] ∧
    (read_lp ["Subject To", "c1: x + y <= 10"]).constraints = [] := by
  decide

/-- C1, amended: a line that lower-cases and trims to a constraint-section
keyword, followed by the **indented** line `" c1: x + y <= 10"` (so it is not
taken for a section header), yields exactly the variables `x` and `y` and
exactly one constraint whose variable list is `[x, y]` in that order. -/
theorem C1_indented_constraint_line_parses :
    (read_lp ["Subject To", " c1: x + y <= 10"]).varIds = ["x", "y"] ∧
    (read_lp ["Subject To", " c1: x + y <= 10"]).constraints.map
        Constraint.vars = [["x", "y"]] := by
  decide

/-- C3: the MPS parser does **not** silently drop every malformed line: an
indented COLUMNS line with a single token (here `"  X"`) makes `read_mps` hit
the unguarded `content[1]` access and raise `IndexError` (modelled as
`none`). -/
theorem C3_mps_single_token_line_raises :
    read_mps ["COLUMNS", "  X"] = none := by
  decide

/-- C4: a model with one constraint `[a, b, c]` projects to exactly the three
edges `(a,b)`, `(a,c)`, `(b,c)`, each of weight 1 in unweighted mode; a model
with two constraints `[a,b]` and `[a,b]` projects to the single edge `(a,b)`
of weight 2 in weighted mode and weight 1 in unweighted mode. -/
theorem C4_projection_edges_and_weights :
    graphEdges (Model.empty.create_constraint_relation ["a", "b", "c"]) false
      = [(("a", "b"), 1), (("a", "c"), 1), (("b", "c"), 1)] ∧
    graphEdges ((Model.empty.create_constraint_relation
        ["a", "b"]).create_constraint_relation ["a", "b"]) true
      = [(("a", "b"), 2)] ∧
    graphEdges ((Model.empty.create_constraint_relation
        ["a", "b"]).create_constraint_relation ["a", "b"]) false
      = [(("a", "b"), 1)] := by
  decide

/-- C5: `is_variable` accepts a token iff its length is between 1 and 255,
its first character is neither a digit nor one of `+ - * ^ < > = ( ) [ ] , :`,
and no character of the token is one of `+ - * ^ :`. -/
theorem C5_is_variable_characterisation (w : String) :
    is_variable w = true ↔ isVariableSpec w := by
  unfold is_variable isVariableSpec
  match h : w.data with
  | [] => simp
  | c :: rest =>
    simp only [List.length_cons, List.head?_cons, Option.some.injEq, gt_iff_lt,
      List.any_eq_true, Bool.or_eq_true, beq_iff_eq, decide_eq_true_eq]
    split_ifs with h1 h2 h3 h4 <;>
      simp_all <;> first | omega | tauto

/-- C6: the indented data line `"    ROW1 X1 1.0 X2 2.0"` inside the COLUMNS
section accumulates `["X1", "X2"]` under row `ROW1` and produces exactly one
constraint `[X1, X2]`; an indented line whose second token contains `MARKER`
contributes nothing to the model. -/
theorem C6_mps_columns_line_and_marker :
    mpsScan ["COLUMNS", "    ROW1 X1 1.0 X2 2.0"] false []
      = some [("ROW1", ["X1", "X2"])] ∧
    (read_mps ["COLUMNS", "    ROW1 X1 1.0 X2 2.0"]).map
        (fun m => (m.varIds, m.constraints.map Constraint.vars))
      = some (["X1", "X2"], [["X1", "X2"]]) ∧
    read_mps ["COLUMNS", "    M1 xMARKERy 42"] = some Model.empty := by
  decide

/-! ## Self-loops in the projection (C2) -/

/-- A `foldl` preserves any invariant its step preserves. -/
theorem foldl_preserves {α β : Type} (f : β → α → β) (Inv : β → Prop)
    (l : List α) (hstep : ∀ b a, a ∈ l → Inv b → Inv (f b a)) (b : β)
    (hb : Inv b) : Inv (l.foldl f b) := by
  induction l generalizing b with
  | nil => exact hb
  | cons x xs ih =>
    exact ih (fun b a ha hb => hstep b a (List.mem_cons_of_mem _ ha) hb) _
      (hstep b x (List.mem_cons_self _ _) hb)

/-- `canonPair` of two distinct ids has distinct components. -/
theorem canonPair_ne {a b : String} (hab : a ≠ b) :
    (canonPair a b).1 ≠ (canonPair a b).2 := by
  unfold canonPair
  split <;> simp [hab, hab.symm]

/-- Over a duplicate-free variable list, every pair emitted by the projection
loop has distinct components. -/
theorem constraintPairs_ne {l : List String} (hl : l.Nodup) :
    ∀ p ∈ constraintPairs l, p.1 ≠ p.2 := by
  induction l with
  | nil => intro p hp; simp [constraintPairs] at hp
  | cons x xs ih =>
    intro p hp
    rw [constraintPairs, List.mem_append] at hp
    rcases hp with hp | hp
    · rcases List.mem_map.mp hp with ⟨y, hy, rfl⟩
      exact canonPair_ne fun hxy => (List.nodup_cons.mp hl).1 (hxy ▸ hy)
    · exact ih (List.nodup_cons.mp hl).2 p hp

/-- `bumpEdge` preserves a property of all keys, provided the new key has
it. -/
theorem bumpEdge_keys {P : String × String → Prop}
    {edges : List ((String × String) × Nat)} {e : String × String}
    (he : P e) (hedges : ∀ p ∈ edges, P p.1) :
    ∀ p ∈ bumpEdge edges e, P p.1 := by
  intro p hp
  unfold bumpEdge at hp
  split at hp
  · rcases List.mem_map.mp hp with ⟨q, hq, rfl⟩
    split <;> exact hedges q hq
  · rcases List.mem_append.mp hp with hq | hq
    · exact hedges p hq
    · simp at hq; rw [hq]; exact he

/-- C2, counterexample: a constraint whose variable list holds the same id
twice makes the projection emit a self-loop — for the model built from the
single relation `["a", "a"]` it is **not** the case that every edge has
distinct endpoints (the edge `("a", "a")` is emitted). -/
theorem C2_duplicate_token_self_loop :
    ¬ (∀ e ∈ graphEdges
        (Model.empty.create_constraint_relation ["a", "a"]) false,
        e.1.1 ≠ e.1.2) := by
  decide

/-- C2, amended: for a model none of whose constraints lists the same id
twice, the projection emits no self-loop: every edge `{u, v}` has `u ≠ v`.
(When a constraint does hold duplicate tokens, the equal-id pair falls into
the `else` branch of the canonicalisation and the self-pair **is** emitted.) -/
theorem C2_no_self_loop_of_nodup (m : Model) (w : Bool)
    (h : ∀ c ∈ m.constraints, c.vars.Nodup) :
    ∀ e ∈ graphEdges m w, e.1.1 ≠ e.1.2 := by
  have hme : ∀ p ∈ modelEdges m, p.1.1 ≠ p.1.2 := by
    unfold modelEdges
    exact foldl_preserves
      (fun acc c => (constraintPairs c.vars).foldl bumpEdge acc)
      (fun acc => ∀ p ∈ acc, p.1.1 ≠ p.1.2) m.constraints
      (fun b c hc hb =>
        foldl_preserves bumpEdge (fun acc => ∀ p ∈ acc, p.1.1 ≠ p.1.2)
          (constraintPairs c.vars)
          (fun b2 e he hb2 =>
            @bumpEdge_keys (fun q => q.1 ≠ q.2) b2 e
              (constraintPairs_ne (h c hc) e he) hb2)
          b hb)
      [] (by simp)
  intro e he
  unfold graphEdges at he
  rcases List.mem_map.mp he with ⟨q, hq, rfl⟩
  exact hme q hq

/-- C2, witness for the amended theorem at a concrete model. -/
theorem C2_no_self_loop_witness :
    (∀ c ∈ (Model.empty.create_constraint_relation ["a", "b", "c"]).constraints,
      c.vars.Nodup) ∧
    (∀ e ∈ graphEdges
        (Model.empty.create_constraint_relation ["a", "b", "c"]) false,
      e.1.1 ≠ e.1.2) :=
  ⟨by decide,
   C2_no_self_loop_of_nodup
     (Model.empty.create_constraint_relation ["a", "b", "c"]) false
     (by decide)⟩

/-! ## Model invariant (C7) -/

/-- Every variable stored in the dictionary sits under its own id, and every
id referenced by any constraint is a key of the dictionary.  In the
arena-and-index representation a constraint refers to its variables by id, so
"the same Variable object" is exactly the entry the dictionary holds under
that id. -/
def ModelInv (m : Model) : Prop :=
  (∀ p ∈ m.vars, p.2.id = p.1) ∧
  ∀ c ∈ m.constraints, ∀ id ∈ c.vars, id ∈ m.varIds

theorem lookupAssoc_some_mem {l : List (String × Variable)} {id : String}
    {v : Variable} (h : lookupAssoc l id = some v) : id ∈ l.map Prod.fst := by
  induction l with
  | nil => simp [lookupAssoc] at h
  | cons p rest ih =>
    obtain ⟨k, v'⟩ := p
    unfold lookupAssoc at h
    by_cases hk : k = id
    · simp [hk]
    · simp only [hk, if_neg, if_false] at h
      exact List.mem_cons_of_mem _ (ih h)

/-- `create_variable` can only grow the key set. -/
theorem create_variable_varIds_mono {m : Model} {x : String} (id : String)
    (hx : x ∈ m.varIds) : x ∈ (m.create_variable id).1.varIds := by
  unfold Model.create_variable
  cases lookupAssoc m.vars id <;>
    simp_all [Model.varIds]

/-- After `create_variable id`, `id` is a key. -/
theorem create_variable_mem_self (m : Model) (id : String) :
    id ∈ (m.create_variable id).1.varIds := by
  unfold Model.create_variable
  cases h : lookupAssoc m.vars id with
  | some v => exact lookupAssoc_some_mem h
  | none => simp [Model.varIds]

theorem create_variable_constraints (m : Model) (id : String) :
    (m.create_variable id).1.constraints = m.constraints := by
  unfold Model.create_variable
  cases lookupAssoc m.vars id <;> rfl

theorem create_variable_inv {m : Model} (id : String) (h : ModelInv m) :
    ModelInv (m.create_variable id).1 := by
  obtain ⟨h1, h2⟩ := h
  constructor
  · intro p hp
    unfold Model.create_variable at hp
    cases h : lookupAssoc m.vars id with
    | some v =>
      rw [h] at hp
      exact h1 p hp
    | none =>
      rw [h] at hp
      simp only at hp
      rcases List.mem_append.mp hp with hq | hq
      · exact h1 p hq
      · simp at hq; rw [hq]
  · intro c hc id' hid'
    rw [create_variable_constraints] at hc
    exact create_variable_varIds_mono id (h2 c hc id' hid')

/-- The variable-creation pass of `create_constraint_relation`. -/
theorem fold_create_inv {ids : List String} {m : Model} (h : ModelInv m) :
    ModelInv (ids.foldl (fun acc id => (acc.create_variable id).1) m) :=
  foldl_preserves _ ModelInv ids
    (fun _b a _ hb => create_variable_inv a hb) m h

theorem fold_create_varIds_mono {ids : List String} {m : Model} {x : String}
    (hx : x ∈ m.varIds) :
    x ∈ (ids.foldl (fun acc id => (acc.create_variable id).1) m).varIds :=
  foldl_preserves _ (fun b => x ∈ b.varIds) ids
    (fun _b a _ hb => create_variable_varIds_mono a hb) m hx

theorem fold_create_constraints (ids : List String) (m : Model) :
    (ids.foldl (fun acc id => (acc.create_variable id).1) m).constraints
      = m.constraints := by
  induction ids generalizing m with
  | nil => rfl
  | cons x xs ih => rw [List.foldl_cons, ih, create_variable_constraints]

/-- After the creation pass, every id of the list is a key. -/
theorem fold_create_mem {ids : List String} {m : Model} :
    ∀ id ∈ ids,
      id ∈ (ids.foldl (fun acc id => (acc.create_variable id).1) m).varIds := by
  induction ids generalizing m with
  | nil => intro id hid; simp at hid
  | cons x xs ih =>
    intro id hid
    rw [List.foldl_cons]
    rcases List.mem_cons.mp hid with rfl | hid
    · exact fold_create_varIds_mono (create_variable_mem_self m id)
    · exact ih id hid

theorem addBackref_varIds (m : Model) (id : String) (ci : Nat) :
    (m.addBackref id ci).varIds = m.varIds := by
  unfold Model.addBackref Model.varIds
  simp only [List.map_map]
  apply List.map_congr_left
  intro p _
  by_cases h : p.1 = id <;> simp [h]

theorem addBackref_inv {m : Model} (id : String) (ci : Nat)
    (h : ModelInv m) : ModelInv (m.addBackref id ci) := by
  obtain ⟨h1, h2⟩ := h
  constructor
  · intro p hp
    unfold Model.addBackref at hp
    simp only [List.mem_map] at hp
    obtain ⟨q, hq, rfl⟩ := hp
    by_cases hqi : q.1 = id <;> simp [hqi, h1 q hq]
  · intro c hc id' hid'
    rw [addBackref_varIds]
    exact h2 c hc id' hid'

theorem create_constraint_relation_inv {m : Model} (ids : List String)
    (h : ModelInv m) : ModelInv (m.create_constraint_relation ids) := by
  unfold Model.create_constraint_relation
  set m1 := ids.foldl (fun acc id => (acc.create_variable id).1) m with hm1
  have hinv1 : ModelInv m1 := fold_create_inv h
  have hinv2 : ModelInv { m1 with constraints := m1.constraints ++ [⟨ids⟩] } := by
    constructor
    · exact hinv1.1
    · intro c hc id' hid'
      rcases List.mem_append.mp hc with hco | hcn
      · exact hinv1.2 c hco id' hid'
      · simp at hcn
        rw [hcn] at hid'
        exact fold_create_mem id' hid'
  exact foldl_preserves _ ModelInv ids
    (fun b a _ hb => addBackref_inv a m1.constraints.length hb) _ hinv2

/-- C7: the invariant — every variable stored in `Model.variables` sits under
its own id, and every variable referenced by any constraint is present in
`Model.variables` (the entry its id resolves to) — holds of the empty model
and is preserved by `create_variable` and by `create_constraint_relation`. -/
theorem C7_model_invariant_preserved :
    ModelInv Model.empty ∧
    (∀ (m : Model) (id : String), ModelInv m →
      ModelInv (m.create_variable id).1) ∧
    ∀ (m : Model) (ids : List String), ModelInv m →
      ModelInv (m.create_constraint_relation ids) :=
  ⟨⟨by simp [Model.empty], by simp [Model.empty]⟩,
   fun _ id h => create_variable_inv id h,
   fun _ ids h => create_constraint_relation_inv ids h⟩

/-- C7, witness: the invariant propagated to a concrete model. -/
theorem C7_model_invariant_witness :
    ModelInv (Model.empty.create_constraint_relation ["x", "y", "x"]) :=
  C7_model_invariant_preserved.2.2 Model.empty ["x", "y", "x"]
    C7_model_invariant_preserved.1

/-! ## The trailing unpaired MPS token (C10) -/

/-- A list of odd length keeps its last element under the stride-2 readout. -/
theorem everyOther_getLast : ∀ (l : List String) (x : String),
    l.length % 2 = 1 → l.getLast? = some x → x ∈ everyOther l
  | [], x => by simp
  | [a], x => by
    intro _ hx
    simp only [List.getLast?_singleton, Option.some.injEq] at hx
    simp [everyOther, hx]
  | a :: b :: t, x => by
    intro hlen hx
    have ht : t.length % 2 = 1 := by
      simp only [List.length_cons] at hlen
      omega
    have tne : t ≠ [] := by
      intro h
      rw [h] at ht
      simp at ht
    obtain ⟨c, t', rfl⟩ := List.exists_cons_of_ne_nil tne
    rw [List.getLast?_cons_cons, List.getLast?_cons_cons] at hx
    have hmem := everyOther_getLast (c :: t') x ht hx
    rw [everyOther]
    exact List.mem_cons_of_mem _ hmem

/-- C10: on an indented, non-blank, non-MARKER COLUMNS line with an even
token count (row name plus an odd number of remaining tokens, so the last
token has no paired value), the final unpaired token is still collected among
the row's variables; concretely, `"    R X1 1.0 X2"` yields the constraint
`[X1, X2]`. -/
theorem C10_trailing_unpaired_token_collected :
    (∀ (c0 x : String) (rest : List String),
      (c0 :: rest).length % 2 = 0 → rest.getLast? = some x →
      x ∈ mpsLineVars (c0 :: rest)) ∧
    (read_mps ["COLUMNS", "    R X1 1.0 X2"]).map
        (fun m => m.constraints.map Constraint.vars) = some [["X1", "X2"]] := by
  constructor
  · intro c0 x rest hlen hx
    have hodd : rest.length % 2 = 1 := by
      simp only [List.length_cons] at hlen
      omega
    exact everyOther_getLast rest x hodd hx
  · decide

/-- C10, witness: the general part applied to the tokens of the concrete
line. -/
theorem C10_trailing_unpaired_token_witness :
    (("R" :: ["X1", "1.0", "X2"]).length % 2 = 0 ∧
      ["X1", "1.0", "X2"].getLast? = some "X2") ∧
    "X2" ∈ mpsLineVars ("R" :: ["X1", "1.0", "X2"]) :=
  ⟨⟨by decide, by decide⟩,
   C10_trailing_unpaired_token_collected.1 "R" "X2" ["X1", "1.0", "X2"]
     (by decide) (by decide)⟩

/-! ## Layout engine (C9)

The source delegates layout to the external graph library
(`nx.spring_layout`); only its contract is specified.  The definitions below
are modelled from the spec (§4.5): pseudo-random seeded initial positions in
a bounded square, then iterations that sum a repulsive force between every
pair of nodes (inversely proportional to distance, clamped away from zero),
an attractive force along every edge (proportional to distance and to edge
weight), and move each node by its net force scaled by a step size that
decreases linearly over a fixed iteration budget.  Coordinates are exact
rationals, so the numeric tolerance of the claim is zero. -/

/-- Modelled from the spec: a linear congruential pseudo-random generator,
standing in for the seeded PRNG of the missing layout code. -/
def lcg (s : Nat) : Nat := (1103515245 * s + 12345) % 4294967296

/-- A pseudo-random coordinate in `[0, 1)` from a generator state. -/
def lcgCoord (s : Nat) : ℚ := ((s % 1000 : Nat) : ℚ) / 1000

/-- Modelled from the spec: initial positions, pseudo-random in the unit
square, fully determined by the generator state. -/
def initPositions : List String → Nat → List (String × (ℚ × ℚ))
  | [], _ => []
  | n :: rest, s =>
    let s1 := lcg s
    let s2 := lcg s1
    (n, (lcgCoord s1, lcgCoord s2)) :: initPositions rest s2

def lookupPos (pos : List (String × (ℚ × ℚ))) (v : String) : ℚ × ℚ :=
  match pos.find? (fun p => p.1 == v) with
  | some p => p.2
  | none => (0, 0)

/-- Repulsive force on `v` at `p`: for every other node, inversely
proportional to the (clamped) squared distance. -/
def repulse (v : String) (p : ℚ × ℚ) (pos : List (String × (ℚ × ℚ))) :
    ℚ × ℚ :=
  pos.foldl
    (fun acc q =>
      if q.1 == v then acc
      else
        let dx := p.1 - q.2.1
        let dy := p.2 - q.2.2
        let d2 := dx * dx + dy * dy + 1
        (acc.1 + dx / d2, acc.2 + dy / d2))
    (0, 0)

/-- Attractive force on `v` at `p`: along every incident edge, proportional
to the distance and to the edge weight. -/
def attract (v : String) (p : ℚ × ℚ) (pos : List (String × (ℚ × ℚ)))
    (edges : List ((String × String) × Nat)) : ℚ × ℚ :=
  edges.foldl
    (fun acc e =>
      if e.1.1 == v then
        let q := lookupPos pos e.1.2
        (acc.1 + (e.2 : ℚ) * (q.1 - p.1), acc.2 + (e.2 : ℚ) * (q.2 - p.2))
      else if e.1.2 == v then
        let q := lookupPos pos e.1.1
        (acc.1 + (e.2 : ℚ) * (q.1 - p.1), acc.2 + (e.2 : ℚ) * (q.2 - p.2))
      else acc)
    (0, 0)

/-- One iteration: move every node by its net force scaled by step size
`t`. -/
def layoutStep (edges : List ((String × String) × Nat))
    (pos : List (String × (ℚ × ℚ))) (t : ℚ) : List (String × (ℚ × ℚ)) :=
  pos.map fun vp =>
    let r := repulse vp.1 vp.2 pos
    let a := attract vp.1 vp.2 pos edges
    (vp.1, (vp.2.1 + t * (r.1 + a.1), vp.2.2 + t * (r.2 + a.2)))

/-- The fixed iteration budget of the cooling schedule. -/
def layoutIters : Nat := 50

/-- Modelled from the spec: `spring_layout` — seeded pseudo-random initial
placement followed by `layoutIters` force iterations under a linearly
decreasing step size. -/
def spring_layout (nodes : List String)
    (edges : List ((String × String) × Nat)) (seed : Nat) :
    List (String × (ℚ × ℚ)) :=
  (List.range layoutIters).foldl
    (fun pos i =>
      layoutStep edges pos
        (((layoutIters - i : Nat) : ℚ) / ((layoutIters * layoutIters : Nat) : ℚ)))
    (initPositions nodes (lcg seed))

/-- C9: layout determinism — two independent runs of the layout engine on the
same graph with the same caller-supplied seed produce identical node-id to
position mappings (exactly, coordinates being rationals). -/
theorem C9_layout_deterministic (nodes : List String)
    (edges : List ((String × String) × Nat)) (s₁ s₂ : Nat) (h : s₁ = s₂) :
    spring_layout nodes edges s₁ = spring_layout nodes edges s₂ := by
  rw [h]

/-- C9, witness: the determinism theorem at a concrete graph and seed. -/
theorem C9_layout_deterministic_witness :
    (7 : Nat) = 7 ∧
    spring_layout ["a", "b"] [(("a", "b"), 1)] 7
      = spring_layout ["a", "b"] [(("a", "b"), 1)] 7 :=
  ⟨rfl, C9_layout_deterministic ["a", "b"] [(("a", "b"), 1)] 7 7 rfl⟩

/-! ## Betweenness centrality (C8)

The source delegates centrality to the external graph library
(`nx.betweenness_centrality`).  Modelled from the spec: betweenness
centrality is the fraction of all-pairs shortest paths passing through a
node (glossary), the graph being treated as unweighted; following §4.6 we
fix the normalization to a division by `(N-1)(N-2)`, summing the dependency
`σ_st(v)/σ_st` over **ordered** pairs `s ≠ t` of nodes distinct from `v`
(equivalently, twice the unordered sum divided by twice the unordered
normalizer). -/

/-- Adjacency induced by an undirected edge list. -/
def adjB (edges : List (String × String)) (u v : String) : Bool :=
  edges.any fun e => (e.1 == u && e.2 == v) || (e.1 == v && e.2 == u)

/-- All simple paths from `cur` to `tgt` avoiding `visited`, by fuelled
depth-first enumeration (a path stops on reaching `tgt`). -/
def simplePaths (nodes : List String) (edges : List (String × String)) :
    Nat → String → String → List String → List (List String)
  | 0, _, _, _ => []
  | fuel + 1, cur, tgt, visited =>
    if cur == tgt then [[cur]]
    else
      (nodes.filter fun n => adjB edges cur n && !(visited.contains n)).flatMap
        fun n =>
          (simplePaths nodes edges fuel n tgt (n :: visited)).map (cur :: ·)

/-- The shortest simple paths from `s` to `t` (empty when `t` is
unreachable). -/
def shortestPaths (nodes : List String) (edges : List (String × String))
    (s t : String) : List (List String) :=
  let ps := simplePaths nodes edges (nodes.length + 1) s t [s]
  match (ps.map List.length).min? with
  | none => []
  | some d => ps.filter fun p => p.length == d

/-- `σ_st`: the number of shortest `s`–`t` paths. -/
def sigmaST (nodes : List String) (edges : List (String × String))
    (s t : String) : Nat :=
  (shortestPaths nodes edges s t).length

/-- `σ_st(v)`: the number of shortest `s`–`t` paths passing through `v`. -/
def sigmaThrough (nodes : List String) (edges : List (String × String))
    (s t v : String) : Nat :=
  ((shortestPaths nodes edges s t).filter fun p => p.contains v).length

/-- The dependency of the pair `(s, t)` on `v`: `σ_st(v) / σ_st`
(`0` when `t` is unreachable from `s`, division by zero being zero). -/
def pairDependency (nodes : List String) (edges : List (String × String))
    (v s t : String) : ℚ :=
  ((sigmaThrough nodes edges s t v : Nat) : ℚ)
    / ((sigmaST nodes edges s t : Nat) : ℚ)

/-- The ordered pairs `(s, t)`, `s ≠ t`, of nodes distinct from `v`. -/
def sourcePairs (nodes : List String) (v : String) :
    List (String × String) :=
  let others := nodes.filter fun u => !(u == v)
  others.flatMap fun s => (others.filter fun t => !(t == s)).map fun t => (s, t)

/-- Modelled from the spec: normalized betweenness centrality of `v` — the
dependencies summed over all ordered source/target pairs avoiding `v`,
divided by `(N-1)(N-2)`. -/
def betweenness_centrality (nodes : List String)
    (edges : List (String × String)) (v : String) : ℚ :=
  let total :=
    ((sourcePairs nodes v).map fun st =>
      pairDependency nodes edges v st.1 st.2).sum
  total / ((((nodes.length - 1) * (nodes.length - 2) : Nat)) : ℚ)

/-- A quotient of naturals with `a ≤ b` lies in `[0, 1]` (with `a/0 = 0`). -/
theorem natRatio_bounds {a b : Nat} (hab : a ≤ b) :
    0 ≤ ((a : Nat) : ℚ) / ((b : Nat) : ℚ) ∧
      ((a : Nat) : ℚ) / ((b : Nat) : ℚ) ≤ 1 := by
  cases b with
  | zero =>
    have : a = 0 := Nat.le_zero.mp hab
    subst this
    norm_num
  | succ n =>
    have hb : (0 : ℚ) < ((n + 1 : Nat) : ℚ) := by exact_mod_cast Nat.succ_pos n
    refine ⟨div_nonneg (by positivity) hb.le, ?_⟩
    rw [div_le_one hb]
    exact_mod_cast hab

/-- Every pair dependency lies in `[0, 1]`: the shortest paths through `v`
are among all shortest paths. -/
theorem pairDependency_bounds (nodes : List String)
    (edges : List (String × String)) (v s t : String) :
    0 ≤ pairDependency nodes edges v s t ∧
      pairDependency nodes edges v s t ≤ 1 := by
  unfold pairDependency sigmaThrough sigmaST
  exact natRatio_bounds (List.length_filter_le _ _)

/-- A list of rationals bounded by `[0, 1]` termwise sums to at most its
length. -/
theorem sum_le_length {α : Type} (l : List α) (f : α → ℚ)
    (h : ∀ x ∈ l, f x ≤ 1) : (l.map f).sum ≤ (l.length : ℚ) := by
  induction l with
  | nil => simp
  | cons x xs ih =>
    simp only [List.map_cons, List.sum_cons, List.length_cons]
    have h1 := ih fun y hy => h y (List.mem_cons_of_mem _ hy)
    have h2 := h x (List.mem_cons_self _ _)
    push_cast
    linarith

/-- Removing one occurrence of a member from a duplicate-free list by
filtering drops the length by exactly one. -/
theorem filter_ne_length {l : List String} {v : String}
    (hv : v ∈ l) (hnd : l.Nodup) :
    (l.filter fun u => !(u == v)).length = l.length - 1 := by
  induction l with
  | nil => simp at hv
  | cons a t ih =>
    rw [List.nodup_cons] at hnd
    by_cases hav : a = v
    · subst hav
      have hfix : t.filter (fun u => !(u == a)) = t :=
        List.filter_eq_self.mpr fun b hb => by
          simp only [Bool.not_eq_true', beq_eq_false_iff_ne, ne_eq]
          intro hba
          exact hnd.1 (hba ▸ hb)
      simp [List.filter_cons, hfix]
    · have hvt : v ∈ t := by
        rcases List.mem_cons.mp hv with h | h
        · exact absurd h.symm hav
        · exact h
      have ht1 : 1 ≤ t.length :=
        Nat.succ_le_of_lt (List.length_pos.mpr (List.ne_nil_of_mem hvt))
      rw [List.filter_cons]
      have hpass : (!(a == v)) = true := by
        simp [beq_eq_false_iff_ne, hav]
      rw [if_pos hpass, List.length_cons, ih hvt hnd.2]
      simp only [List.length_cons]
      omega

/-- Summing a function that is constant on a list. -/
theorem sum_map_const_on {α : Type} {l : List α} {f : α → Nat} {c : Nat}
    (h : ∀ x ∈ l, f x = c) : (l.map f).sum = l.length * c := by
  induction l with
  | nil => simp
  | cons x xs ih =>
    rw [List.map_cons, List.sum_cons, h x (List.mem_cons_self _ _),
      ih fun y hy => h y (List.mem_cons_of_mem _ hy), List.length_cons]
    ring

/-- With duplicate-free nodes containing `v`, the ordered source/target pairs
avoiding `v` number exactly `(N-1)(N-2)`. -/
theorem sourcePairs_length {nodes : List String} {v : String}
    (hv : v ∈ nodes) (hnd : nodes.Nodup) :
    (sourcePairs nodes v).length = (nodes.length - 1) * (nodes.length - 2) := by
  unfold sourcePairs
  rw [List.length_flatMap]
  have hondup : (nodes.filter fun u => !(u == v)).Nodup := hnd.filter _
  have holen : (nodes.filter fun u => !(u == v)).length = nodes.length - 1 :=
    filter_ne_length hv hnd
  rw [sum_map_const_on (fun s hs => by
    simp only [Function.comp_apply, List.length_map]
    exact filter_ne_length hs hondup)]
  rw [holen]
  have h2 : nodes.length - 1 - 1 = nodes.length - 2 := by omega
  rw [h2]

/-- The `[0, 1]` bound for the centrality of any node of any graph. -/
theorem betweenness_centrality_bounds {nodes : List String}
    (edges : List (String × String)) {v : String}
    (hv : v ∈ nodes) (hnd : nodes.Nodup) :
    0 ≤ betweenness_centrality nodes edges v ∧
      betweenness_centrality nodes edges v ≤ 1 := by
  unfold betweenness_centrality
  simp only
  have hlen : (sourcePairs nodes v).length
      = (nodes.length - 1) * (nodes.length - 2) := sourcePairs_length hv hnd
  have h0 : 0 ≤ ((sourcePairs nodes v).map fun st =>
      pairDependency nodes edges v st.1 st.2).sum := by
    apply List.sum_nonneg
    intro x hx
    rcases List.mem_map.mp hx with ⟨st, _, rfl⟩
    exact (pairDependency_bounds nodes edges v st.1 st.2).1
  have h1 : ((sourcePairs nodes v).map fun st =>
      pairDependency nodes edges v st.1 st.2).sum
        ≤ ((sourcePairs nodes v).length : ℚ) :=
    sum_le_length _ _ fun st _ =>
      (pairDependency_bounds nodes edges v st.1 st.2).2
  rcases Nat.eq_zero_or_pos ((nodes.length - 1) * (nodes.length - 2)) with
    hd | hd
  · have hpairs : sourcePairs nodes v = [] :=
      List.length_eq_zero.mp (hlen.trans hd)
    rw [hpairs, hd]
    norm_num
  · have hdq : (0 : ℚ) < (((nodes.length - 1) * (nodes.length - 2) : Nat) : ℚ) := by
      exact_mod_cast hd
    refine ⟨div_nonneg h0 hdq.le, ?_⟩
    rw [div_le_one hdq]
    calc ((sourcePairs nodes v).map fun st =>
        pairDependency nodes edges v st.1 st.2).sum
        ≤ ((sourcePairs nodes v).length : ℚ) := h1
      _ = (((nodes.length - 1) * (nodes.length - 2) : Nat) : ℚ) := by
          exact_mod_cast congrArg Nat.cast hlen

/-- In the 3-node path `a–b–c` the middle node carries the whole `a`–`c`
dependency: its normalized centrality is 1. -/
theorem path3_centrality_b :
    betweenness_centrality ["a", "b", "c"] [("a", "b"), ("b", "c")] "b"
      = 1 := by
  have hsp : sourcePairs ["a", "b", "c"] "b" = [("a", "c"), ("c", "a")] := by
    decide
  have h1 : sigmaThrough ["a", "b", "c"] [("a", "b"), ("b", "c")] "a" "c" "b"
      = 1 := by decide
  have h2 : sigmaST ["a", "b", "c"] [("a", "b"), ("b", "c")] "a" "c" = 1 := by
    decide
  have h3 : sigmaThrough ["a", "b", "c"] [("a", "b"), ("b", "c")] "c" "a" "b"
      = 1 := by decide
  have h4 : sigmaST ["a", "b", "c"] [("a", "b"), ("b", "c")] "c" "a" = 1 := by
    decide
  unfold betweenness_centrality pairDependency
  rw [hsp]
  simp only [List.map_cons, List.map_nil, List.sum_cons, List.sum_nil]
  rw [h1, h2, h3, h4]
  norm_num

/-- In the 3-node path `a–b–c` the endpoint `a` lies on no shortest path
between the others: its centrality is 0. -/
theorem path3_centrality_a :
    betweenness_centrality ["a", "b", "c"] [("a", "b"), ("b", "c")] "a"
      = 0 := by
  have hsp : sourcePairs ["a", "b", "c"] "a" = [("b", "c"), ("c", "b")] := by
    decide
  have h1 : sigmaThrough ["a", "b", "c"] [("a", "b"), ("b", "c")] "b" "c" "a"
      = 0 := by decide
  have h3 : sigmaThrough ["a", "b", "c"] [("a", "b"), ("b", "c")] "c" "b" "a"
      = 0 := by decide
  unfold betweenness_centrality pairDependency
  rw [hsp]
  simp only [List.map_cons, List.map_nil, List.sum_cons, List.sum_nil]
  rw [h1, h3]
  norm_num

/-- In the 3-node path `a–b–c` the endpoint `c` lies on no shortest path
between the others: its centrality is 0. -/
theorem path3_centrality_c :
    betweenness_centrality ["a", "b", "c"] [("a", "b"), ("b", "c")] "c"
      = 0 := by
  have hsp : sourcePairs ["a", "b", "c"] "c" = [("a", "b"), ("b", "a")] := by
    decide
  have h1 : sigmaThrough ["a", "b", "c"] [("a", "b"), ("b", "c")] "a" "b" "c"
      = 0 := by decide
  have h3 : sigmaThrough ["a", "b", "c"] [("a", "b"), ("b", "c")] "b" "a" "c"
      = 0 := by decide
  unfold betweenness_centrality pairDependency
  rw [hsp]
  simp only [List.map_cons, List.map_nil, List.sum_cons, List.sum_nil]
  rw [h1, h3]
  norm_num

/-- C8: for every graph (duplicate-free node list) every node's normalized
betweenness centrality lies in `[0, 1]`, and on the 3-node path `a–b–c`
(edges `(a,b)` and `(b,c)` only) the centrality of `b` exceeds that of `a`,
with `a` and `c` both at 0. -/
theorem C8_centrality_bounds_and_path3 :
    (∀ (nodes : List String) (edges : List (String × String)) (v : String),
      v ∈ nodes → nodes.Nodup →
      0 ≤ betweenness_centrality nodes edges v ∧
        betweenness_centrality nodes edges v ≤ 1) ∧
    betweenness_centrality ["a", "b", "c"] [("a", "b"), ("b", "c")] "b"
      > betweenness_centrality ["a", "b", "c"] [("a", "b"), ("b", "c")] "a" ∧
    betweenness_centrality ["a", "b", "c"] [("a", "b"), ("b", "c")] "a" = 0 ∧
    betweenness_centrality ["a", "b", "c"] [("a", "b"), ("b", "c")] "c"
      = 0 := by
  refine ⟨fun nodes edges v hv hnd =>
    betweenness_centrality_bounds edges hv hnd, ?_, path3_centrality_a,
    path3_centrality_c⟩
  rw [path3_centrality_b, path3_centrality_a]
  norm_num

/-- C8, witness: the `[0, 1]` bound applied at a concrete graph and node. -/
theorem C8_centrality_witness :
    ("b" ∈ ["a", "b", "c"] ∧ (["a", "b", "c"] : List String).Nodup) ∧
    0 ≤ betweenness_centrality ["a", "b", "c"] [("a", "b"), ("b", "c")] "b" ∧
      betweenness_centrality ["a", "b", "c"] [("a", "b"), ("b", "c")] "b"
        ≤ 1 :=
  ⟨⟨by decide, by decide⟩,
   C8_centrality_bounds_and_path3.1 ["a", "b", "c"] [("a", "b"), ("b", "c")]
     "b" (by decide) (by decide)⟩

end Exvis
